import Mathlib

/-!
Verification of the Subtitle-Streaming client (`src/frontend/app.js`) against
its natural-language specification.

JavaScript strings are embedded as `List Char` (`JStr`): `message.startsWith(p)`
becomes `p.isPrefixOf m`, `message.substring(7)` becomes `m.drop 7`,
`message.trim()` becomes `jsTrim`, string concatenation becomes list append,
and JavaScript's "nonempty string is truthy" test becomes `≠ []`.
-/

/-- JavaScript strings, embedded as character lists. -/
abbrev JStr := List Char

/-- JavaScript `String.prototype.trim`: strip leading and trailing whitespace. -/
def jsTrim (s : JStr) : JStr :=
  ((s.dropWhile Char.isWhitespace).reverse.dropWhile Char.isWhitespace).reverse

/-- The literal `"Final: "` that `ws.onmessage` tests with
`message.startsWith("Final: ")` (app.js line 34). -/
def finalMark : JStr := "Final: ".toList

/-- Whether the client classifies a server message as the final caption:
`message.startsWith("Final: ")` (app.js line 34). -/
def startsWithFinal (m : JStr) : Bool := finalMark.isPrefixOf m

/-- The body of `ws.onmessage` (app.js lines 30-51) as a function from the
caption area's current text and the received message to the caption area's new
text.  If the message starts with `"Final: "` the 7-character prefix is removed
(`message.substring(7)`) and the trimmed remainder, when nonempty, is appended
followed by a space; otherwise the trimmed message, when nonempty, is appended
followed by a space. -/
def handleMessage (caption : JStr) (message : JStr) : JStr :=
  if startsWithFinal message then
    let finalText := jsTrim (message.drop 7)
    if finalText ≠ [] then caption ++ finalText ++ [' '] else caption
  else
    let cleanText := jsTrim message
    if cleanText ≠ [] then caption ++ cleanText ++ [' '] else caption

/-- The text `handleMessage` appends for one message: the trimmed payload
(after removing the `"Final: "` mark when present) followed by a space, or
nothing when the trimmed payload is empty. -/
def specAppend (message : JStr) : JStr :=
  if startsWithFinal message then
    let finalText := jsTrim (message.drop 7)
    if finalText ≠ [] then finalText ++ [' '] else []
  else
    let cleanText := jsTrim message
    if cleanText ≠ [] then cleanText ++ [' '] else []

/-- The caption text after receiving a list of messages in order, starting
from an empty caption area. -/
def expectedCaption (msgs : List JStr) : JStr := (msgs.map specAppend).flatten

theorem isPrefixOf_iff_append (l m : List Char) :
    l.isPrefixOf m = true ↔ ∃ t, m = l ++ t := by
  induction l generalizing m with
  | nil => simp [List.isPrefixOf]
  | cons a l ih =>
      cases m with
      | nil => simp [List.isPrefixOf]
      | cons b m =>
          simp only [List.isPrefixOf, Bool.and_eq_true, beq_iff_eq, ih,
            List.cons_append, List.cons.injEq]
          constructor
          · rintro ⟨rfl, t, rfl⟩
            exact ⟨t, rfl, rfl⟩
          · rintro ⟨t, rfl, rfl⟩
            exact ⟨rfl, t, rfl⟩

theorem handleMessage_eq (caption message : JStr) :
    handleMessage caption message = caption ++ specAppend message := by
  unfold handleMessage specAppend
  by_cases h : startsWithFinal message = true
  · simp only [h, if_true]
    by_cases h2 : jsTrim (message.drop 7) = []
    · simp [h2]
    · simp [h2, List.append_assoc]
  · simp only [eq_false_of_ne_true (by simpa using h), if_false, Bool.false_eq_true]
    by_cases h2 : jsTrim message = []
    · simp [h, h2]
    · simp [h, h2, List.append_assoc]

theorem foldl_handleMessage (msgs : List JStr) (caption : JStr) :
    msgs.foldl handleMessage caption = caption ++ expectedCaption msgs := by
  induction msgs generalizing caption with
  | nil => simp [expectedCaption]
  | cons m rest ih =>
      simp only [List.foldl_cons, ih, handleMessage_eq, expectedCaption,
        List.map_cons, List.flatten_cons, List.append_assoc]

/-- C3 counterexample: the final message `"Final: hi"` and the incremental
message `"hi"` produce *identical* caption-area updates, so the client does
not render the final caption differently from incremental captions — the only
difference in handling is that the `"Final: "` mark is stripped. -/
theorem c3_renders_identically :
    startsWithFinal "Final: hi".toList = true ∧
    startsWithFinal "hi".toList = false ∧
    handleMessage [] "Final: hi".toList = handleMessage [] "hi".toList := by
  refine ⟨by decide, by decide, by decide⟩

/-- C3 (amended): the client classifies a message as the final caption exactly
when it starts with the 7-character `"Final: "` mark, strips that mark before
display, and then renders the final caption exactly as it would render an
incremental caption carrying the same payload (the rendering itself does not
distinguish the two); finality is therefore recognizable from the message
text, not from the rendered caption area. -/
theorem c3_final_classification (caption t : JStr) (ht : startsWithFinal t = false) :
    (∀ m : JStr, startsWithFinal m = true ↔ ∃ s, m = finalMark ++ s) ∧
    finalMark.length = 7 ∧
    startsWithFinal (finalMark ++ t) = true ∧
    handleMessage caption (finalMark ++ t) = handleMessage caption t := by
  have hchar : ∀ m : JStr, startsWithFinal m = true ↔ ∃ s, m = finalMark ++ s :=
    fun m => isPrefixOf_iff_append finalMark m
  have hpre : startsWithFinal (finalMark ++ t) = true := (hchar _).mpr ⟨t, rfl⟩
  refine ⟨hchar, by decide, hpre, ?_⟩
  have hdrop : (finalMark ++ t).drop 7 = t := by
    have hl : finalMark.length = 7 := by decide
    rw [← hl]
    exact List.drop_left finalMark t
  rw [handleMessage_eq, handleMessage_eq]
  unfold specAppend
  simp [hpre, hdrop, ht]

/-- C3 amended, witnessed at the incremental payload `"hi"`: `"Final: hi"` is
classified final while `"hi"` is not, and both render the same. -/
theorem c3_final_classification_w :
    startsWithFinal ("Final: ".toList ++ "hi".toList) = true ∧
    handleMessage [] ("Final: ".toList ++ "hi".toList) = handleMessage [] "hi".toList := by
  have h := c3_final_classification [] "hi".toList (by decide)
  exact ⟨h.2.2.1, h.2.2.2⟩

/-- C4: receiving any sequence of incremental caption messages followed by one
final message, the handler processes every message in arrival order, and the
caption area ends as the in-order concatenation of each nonempty trimmed
payload (the `"Final: "` mark removed where present), each followed by one
space; a payload that trims to empty contributes nothing. -/
theorem c4_caption_concat (incrementals : List JStr) (finalMsg : JStr) :
    (incrementals ++ [finalMsg]).foldl handleMessage [] =
      expectedCaption (incrementals ++ [finalMsg]) := by
  simpa using foldl_handleMessage (incrementals ++ [finalMsg]) []

/-- C10: each invocation of the message handler either leaves the caption area
unchanged (when the trimmed payload is empty) or appends a nonempty string at
the end; it never removes or rewrites previously displayed text. -/
theorem c10_append_only (caption message : JStr) :
    (specAppend message = [] → handleMessage caption message = caption) ∧
    (handleMessage caption message = caption ∨
      ∃ s : JStr, s ≠ [] ∧ handleMessage caption message = caption ++ s) := by
  constructor
  · intro h
    simp [handleMessage_eq, h]
  · by_cases h : specAppend message = []
    · exact Or.inl (by simp [handleMessage_eq, h])
    · exact Or.inr ⟨specAppend message, h, handleMessage_eq _ _⟩

/-- C10, witnessed on a whitespace-only message (caption unchanged) via the
theorem at caption `"a "` and message `"  "`. -/
theorem c10_append_only_w :
    handleMessage "a ".toList "  ".toList = "a ".toList :=
  (c10_append_only "a ".toList "  ".toList).1 (by decide)

/-!
The sending side of one recording session.  JavaScript is single-threaded:
each event-loop task or microtask runs to completion atomically.  We model a
session (from `ws.onopen`, when `mediaRecorder.ondataavailable` is installed)
as a list of atomic steps:

* `dataAvailable size` — the synchronous part of `ondataavailable` (app.js
  lines 114-122) up to `await e.data.arrayBuffer()`: the guard
  `e.data.size > 0 && ws && ws.readyState === WebSocket.OPEN` runs, and when
  it passes the chunk becomes a pending continuation;
* `resumeSend` — the continuation after the `await` (lines 123-135):
  `ws.send(arrayBuffer)` is attempted against the *current* value of the
  global `ws`; it transmits only when `ws` is non-null and OPEN, and a throw
  (null `ws`, CONNECTING socket) lands in the handler's catch;
* `cleanup` — the whole synchronous body of `cleanup()` (lines 191-238): if
  `ws` is non-null and OPEN it sends the text `"END"`, and in every case it
  ends with `ws = null`;
* `timeoutFire` — the `setTimeout` callback registered by `cleanup` (lines
  225-229): closes the socket only if the global `ws` is non-null and OPEN;
* `serverClose` — the transport closes: the socket's `readyState` becomes
  CLOSED and `ws.onclose` (lines 59-64) calls `cleanup`, whose non-OPEN
  branch just nulls `ws`.

Sent frames record their WebSocket frame type: `Msg.audio` is a binary frame
(the argument of `ws.send` is an ArrayBuffer), `Msg.text` a text frame.
-/

/-- WebSocket ready states. -/
inductive ReadyState
  | CONNECTING
  | OPEN
  | CLOSING
  | CLOSED
deriving DecidableEq, Repr

/-- A frame sent on the WebSocket: a binary audio fragment (identified by its
byte size) or a text message. -/
inductive Msg
  | audio (size : Nat)
  | text (s : JStr)
deriving DecidableEq, Repr

/-- Whether a frame is a binary frame. -/
def Msg.isBinary : Msg → Bool
  | .audio _ => true
  | .text _ => false

/-- The Control Signal: the literal `"END"` sent by `cleanup` (app.js 222). -/
def endSignal : JStr := "END".toList

/-- Client session state: the global `ws` variable (`none` = null, otherwise
the socket's ready state), the frames sent on the connection in order, and the
chunks whose data handler passed the guard but whose send is still pending
behind the `await`. -/
structure ClientState where
  ws : Option ReadyState
  sent : List Msg
  pending : List Nat
deriving DecidableEq, Repr

/-- Atomic client events (one event-loop task or microtask each). -/
inductive ClientEvent
  | dataAvailable (size : Nat)
  | resumeSend
  | cleanup
  | timeoutFire
  | serverClose
deriving DecidableEq, Repr

/-- One atomic step of the client (see the module comment for the app.js
lines each branch embeds). -/
def step (s : ClientState) (e : ClientEvent) : ClientState :=
  match e with
  | .dataAvailable size =>
      if 0 < size ∧ s.ws = some .OPEN then
        { s with pending := s.pending ++ [size] }
      else s
  | .resumeSend =>
      match s.pending with
      | [] => s
      | size :: rest =>
          match s.ws with
          | some .OPEN => { s with pending := rest, sent := s.sent ++ [.audio size] }
          | _ => { s with pending := rest }
  | .cleanup =>
      if s.ws = some .OPEN then
        { s with sent := s.sent ++ [.text endSignal], ws := none }
      else { s with ws := none }
  | .timeoutFire =>
      if s.ws = some .OPEN then { s with ws := some .CLOSING } else s
  | .serverClose =>
      { s with ws := none }

/-- The session starts inside `ws.onopen`: socket OPEN, nothing sent, no
pending chunk. -/
def initState : ClientState := { ws := some .OPEN, sent := [], pending := [] }

/-- The client state after a sequence of events of one session. -/
def run (evs : List ClientEvent) : ClientState := evs.foldl step initState

theorem step_ws_not_reopen (s : ClientState) (e : ClientEvent) (h : s.ws ≠ some ReadyState.OPEN) :
    (step s e).ws ≠ some ReadyState.OPEN := by
  cases e with
  | dataAvailable size =>
      simp only [step]
      split
      · exact h
      · exact h
  | resumeSend =>
      simp only [step]
      cases hp : s.pending with
      | nil => exact h
      | cons a rest =>
          cases hw : s.ws with
          | none => simp [hw]
          | some r =>
              cases r with
              | OPEN => exact absurd hw h
              | CONNECTING => simp [hw]
              | CLOSING => simp [hw]
              | CLOSED => simp [hw]
  | cleanup =>
      simp only [step]
      split <;> simp
  | timeoutFire =>
      simp only [step]
      split <;> simp [h]
  | serverClose => simp [step]

theorem step_ws_none (s : ClientState) (e : ClientEvent) (h : s.ws = none) :
    (step s e).ws = none ∧ (step s e).sent = s.sent := by
  cases e with
  | dataAvailable size => simp [step, h]
  | resumeSend =>
      cases hp : s.pending with
      | nil => simp [step, hp, h]
      | cons a rest => simp [step, hp, h]
  | cleanup => simp [step, h]
  | timeoutFire => simp [step, h]
  | serverClose => simp [step]

theorem foldl_step_ws_none (evs : List ClientEvent) (s : ClientState) (h : s.ws = none) :
    (evs.foldl step s).ws = none ∧ (evs.foldl step s).sent = s.sent := by
  induction evs generalizing s with
  | nil => exact ⟨h, rfl⟩
  | cons e rest ih =>
      obtain ⟨h1, h2⟩ := step_ws_none s e h
      obtain ⟨h3, h4⟩ := ih (step s e) h1
      exact ⟨h3, h4.trans h2⟩

/-- Invariant: once the Control Signal is in the sent trace, the global socket
reference has been nulled (and, by `step_ws_none`, stays so). -/
def EndImpliesNull (s : ClientState) : Prop :=
  Msg.text endSignal ∈ s.sent → s.ws = none

theorem step_endImpliesNull (s : ClientState) (e : ClientEvent) (h : EndImpliesNull s) :
    EndImpliesNull (step s e) := by
  cases e with
  | dataAvailable size =>
      intro hm
      have hm2 : Msg.text endSignal ∈ s.sent := by
        by_cases hc : 0 < size ∧ s.ws = some ReadyState.OPEN <;> simpa [step, hc] using hm
      have hn := h hm2
      simp [step, hn]
  | resumeSend =>
      intro hm
      cases hp : s.pending with
      | nil =>
          simp only [step, hp] at hm ⊢
          exact h hm
      | cons a rest =>
          cases hw : s.ws with
          | none => simp [step, hp, hw]
          | some r =>
              have hm2 : Msg.text endSignal ∈ s.sent := by
                cases r <;> simp only [step, hp, hw] at hm <;>
                  first
                  | exact hm
                  | (rcases List.mem_append.mp hm with h1 | h1
                     · exact h1
                     · exact absurd h1 (by simp))
              exact absurd (h hm2) (by simp [hw])
  | cleanup =>
      intro hm
      by_cases hw : s.ws = some ReadyState.OPEN <;> simp [step, hw]
  | timeoutFire =>
      intro hm
      have hm2 : Msg.text endSignal ∈ s.sent := by
        by_cases hw : s.ws = some ReadyState.OPEN <;> simpa [step, hw] using hm
      have hn := h hm2
      simp [step, hn]
  | serverClose =>
      intro hm
      simp [step]

theorem foldl_endImpliesNull (evs : List ClientEvent) (s : ClientState)
    (h : EndImpliesNull s) : EndImpliesNull (evs.foldl step s) := by
  induction evs generalizing s with
  | nil => exact h
  | cons e rest ih => exact ih (step s e) (step_endImpliesNull s e h)

theorem run_endImpliesNull (evs : List ClientEvent) : EndImpliesNull (run evs) :=
  foldl_endImpliesNull evs initState (by intro hm; simp [initState] at hm)

/-- A step either leaves the sent trace unchanged, or — only when the socket
is OPEN before the step — appends exactly one frame: a pending audio chunk or
the Control Signal. -/
theorem step_sent_cases (s : ClientState) (e : ClientEvent) :
    (step s e).sent = s.sent ∨
    (s.ws = some ReadyState.OPEN ∧
      ((∃ n, n ∈ s.pending ∧ (step s e).sent = s.sent ++ [Msg.audio n]) ∨
        (step s e).sent = s.sent ++ [Msg.text endSignal])) := by
  cases e with
  | dataAvailable size =>
      left
      by_cases hc : 0 < size ∧ s.ws = some ReadyState.OPEN <;> simp [step, hc]
  | resumeSend =>
      cases hp : s.pending with
      | nil => left; simp [step, hp]
      | cons a rest =>
          cases hw : s.ws with
          | none => left; simp [step, hp, hw]
          | some r =>
              cases r with
              | OPEN =>
                  right
                  exact ⟨rfl, Or.inl ⟨a, by simp [hp], by simp [step, hp, hw]⟩⟩
              | CONNECTING => left; simp [step, hp, hw]
              | CLOSING => left; simp [step, hp, hw]
              | CLOSED => left; simp [step, hp, hw]
  | cleanup =>
      by_cases hw : s.ws = some ReadyState.OPEN
      · right; exact ⟨hw, Or.inr (by simp [step, hw])⟩
      · left; simp [step, hw]
  | timeoutFire =>
      left
      by_cases hw : s.ws = some ReadyState.OPEN <;> simp [step, hw]
  | serverClose => left; simp [step]

/-- Every frame in the sent trace is a binary audio fragment or the text
Control Signal. -/
def SentShape (s : ClientState) : Prop :=
  ∀ m ∈ s.sent, (∃ n, m = Msg.audio n) ∨ m = Msg.text endSignal

theorem step_sentShape (s : ClientState) (e : ClientEvent) (h : SentShape s) :
    SentShape (step s e) := by
  rcases step_sent_cases s e with heq | ⟨_, ⟨n, _, heq⟩ | heq⟩
  · intro m hm; rw [heq] at hm; exact h m hm
  · intro m hm
    rw [heq] at hm
    rcases List.mem_append.mp hm with h1 | h1
    · exact h m h1
    · exact Or.inl ⟨n, by simpa using h1⟩
  · intro m hm
    rw [heq] at hm
    rcases List.mem_append.mp hm with h1 | h1
    · exact h m h1
    · exact Or.inr (by simpa using h1)

theorem run_sentShape (evs : List ClientEvent) : SentShape (run evs) := by
  have base : SentShape initState := by intro m hm; simp [initState] at hm
  have gen : ∀ (l : List ClientEvent) (s : ClientState),
      SentShape s → SentShape (l.foldl step s) := by
    intro l
    induction l with
    | nil => intro s hs; exact hs
    | cons e2 rest2 ih2 => intro s hs; exact ih2 (step s e2) (step_sentShape s e2 hs)
  exact gen evs initState base

/-- All pending chunk sizes and all sent audio-fragment sizes are positive. -/
def PosSizes (s : ClientState) : Prop :=
  (∀ n ∈ s.pending, 0 < n) ∧ (∀ n : Nat, Msg.audio n ∈ s.sent → 0 < n)

theorem step_posSizes (s : ClientState) (e : ClientEvent) (h : PosSizes s) :
    PosSizes (step s e) := by
  obtain ⟨hp, hs⟩ := h
  cases e with
  | dataAvailable size =>
      by_cases hc : 0 < size ∧ s.ws = some ReadyState.OPEN
      · constructor
        · intro n hn
          simp only [step, if_pos hc] at hn
          rcases List.mem_append.mp hn with h1 | h1
          · exact hp n h1
          · have h2 : n = size := by simpa using h1
            exact h2 ▸ hc.1
        · intro n hn
          simp only [step, if_pos hc] at hn
          exact hs n hn
      · constructor
        · intro n hn
          simp only [step, if_neg hc] at hn
          exact hp n hn
        · intro n hn
          simp only [step, if_neg hc] at hn
          exact hs n hn
  | resumeSend =>
      cases hpd : s.pending with
      | nil =>
          constructor
          · intro n hn
            simp only [step, hpd] at hn
            simp [hpd] at hn
          · intro n hn
            simp only [step, hpd] at hn
            exact hs n hn
      | cons a rest =>
          have hrest : ∀ n ∈ rest, 0 < n := by
            intro n hn
            exact hp n (by simp [hpd, hn])
          cases hw : s.ws with
          | none =>
              constructor
              · intro n hn
                simp only [step, hpd, hw] at hn
                exact hrest n hn
              · intro n hn
                simp only [step, hpd, hw] at hn
                exact hs n hn
          | some r =>
              cases r with
              | OPEN =>
                  constructor
                  · intro n hn
                    simp only [step, hpd, hw] at hn
                    exact hrest n hn
                  · intro n hn
                    simp only [step, hpd, hw] at hn
                    rcases List.mem_append.mp hn with h1 | h1
                    · exact hs n h1
                    · have h2 : n = a := by simpa using h1
                      exact h2 ▸ hp a (by simp [hpd])
              | CONNECTING =>
                  refine ⟨?_, ?_⟩ <;> intro n hn <;> simp only [step, hpd, hw] at hn
                  · exact hrest n hn
                  · exact hs n hn
              | CLOSING =>
                  refine ⟨?_, ?_⟩ <;> intro n hn <;> simp only [step, hpd, hw] at hn
                  · exact hrest n hn
                  · exact hs n hn
              | CLOSED =>
                  refine ⟨?_, ?_⟩ <;> intro n hn <;> simp only [step, hpd, hw] at hn
                  · exact hrest n hn
                  · exact hs n hn
  | cleanup =>
      by_cases hw : s.ws = some ReadyState.OPEN
      · constructor
        · intro n hn
          simp only [step, if_pos hw] at hn
          exact hp n hn
        · intro n hn
          simp only [step, if_pos hw] at hn
          rcases List.mem_append.mp hn with h1 | h1
          · exact hs n h1
          · exact absurd h1 (by simp)
      · constructor
        · intro n hn
          simp only [step, if_neg hw] at hn
          exact hp n hn
        · intro n hn
          simp only [step, if_neg hw] at hn
          exact hs n hn
  | timeoutFire =>
      by_cases hw : s.ws = some ReadyState.OPEN
      · constructor
        · intro n hn
          simp only [step, if_pos hw] at hn
          exact hp n hn
        · intro n hn
          simp only [step, if_pos hw] at hn
          exact hs n hn
      · constructor
        · intro n hn
          simp only [step, if_neg hw] at hn
          exact hp n hn
        · intro n hn
          simp only [step, if_neg hw] at hn
          exact hs n hn
  | serverClose =>
      constructor
      · intro n hn
        simp only [step] at hn
        exact hp n hn
      · intro n hn
        simp only [step] at hn
        exact hs n hn

theorem run_posSizes (evs : List ClientEvent) : PosSizes (run evs) := by
  rw [run]
  have base : PosSizes initState := by
    constructor <;> intro n hn <;> simp [initState] at hn
  have gen : ∀ (l : List ClientEvent) (s : ClientState),
      PosSizes s → PosSizes (l.foldl step s) := by
    intro l
    induction l with
    | nil => intro s hs; exact hs
    | cons e rest ih => intro s hs; exact ih (step s e) (step_posSizes s e hs)
  exact gen _ _ base

/-- C1: in any session whose socket is OPEN when recording stops, `cleanup`
sends the Control Signal `"END"` exactly once — it was never sent earlier,
and after `cleanup` the sent trace never grows again, so every audio fragment
the client transmits on the connection precedes the single `"END"`. -/
theorem c1_end_signal_once (evs₁ evs₂ : List ClientEvent)
    (h : (run evs₁).ws = some ReadyState.OPEN) :
    (run (evs₁ ++ ClientEvent.cleanup :: evs₂)).sent
        = (run evs₁).sent ++ [Msg.text endSignal] ∧
    Msg.text endSignal ∉ (run evs₁).sent := by
  have hnot : Msg.text endSignal ∉ (run evs₁).sent := by
    intro hm
    have hn := run_endImpliesNull evs₁ hm
    rw [hn] at h
    exact Option.noConfusion h
  refine ⟨?_, hnot⟩
  have hfold : run (evs₁ ++ ClientEvent.cleanup :: evs₂)
      = evs₂.foldl step (step (run evs₁) ClientEvent.cleanup) := by
    simp [run, List.foldl_append]
  have hsent : (step (run evs₁) ClientEvent.cleanup).sent
      = (run evs₁).sent ++ [Msg.text endSignal] := by
    simp [step, h]
  have hws : (step (run evs₁) ClientEvent.cleanup).ws = none := by
    simp [step, h]
  obtain ⟨_, h2⟩ := foldl_step_ws_none evs₂ _ hws
  rw [hfold, h2, hsent]

/-- C1 witnessed: one 5-byte chunk is sent while recording, then `cleanup`
runs with the socket OPEN; late `resumeSend`/`cleanup` events add nothing. -/
theorem c1_end_signal_once_w :
    (run ([ClientEvent.dataAvailable 5, ClientEvent.resumeSend] ++
        ClientEvent.cleanup :: [ClientEvent.resumeSend, ClientEvent.cleanup])).sent
      = (run [ClientEvent.dataAvailable 5, ClientEvent.resumeSend]).sent ++
          [Msg.text endSignal] ∧
    Msg.text endSignal ∉ (run [ClientEvent.dataAvailable 5, ClientEvent.resumeSend]).sent :=
  c1_end_signal_once [ClientEvent.dataAvailable 5, ClientEvent.resumeSend]
    [ClientEvent.resumeSend, ClientEvent.cleanup] (by decide)

/-- C2: every frame the client sends is either a binary audio fragment or the
text Control Signal `"END"`, so the Control Signal is distinguishable from
audio payloads by WebSocket frame type alone. -/
theorem c2_frame_types (evs : List ClientEvent) (m : Msg)
    (hm : m ∈ (run evs).sent) :
    (Msg.isBinary m = true ∧ ∃ n, m = Msg.audio n) ∨
    (Msg.isBinary m = false ∧ m = Msg.text endSignal) := by
  rcases run_sentShape evs m hm with ⟨n, rfl⟩ | rfl
  · exact Or.inl ⟨rfl, n, rfl⟩
  · exact Or.inr ⟨rfl, rfl⟩

/-- C2 witnessed on the Control Signal frame of a session that sends one
chunk and then stops. -/
theorem c2_frame_types_w :
    (Msg.isBinary (Msg.text endSignal) = true ∧ ∃ n, Msg.text endSignal = Msg.audio n) ∨
    (Msg.isBinary (Msg.text endSignal) = false ∧
      Msg.text endSignal = Msg.text endSignal) :=
  c2_frame_types [ClientEvent.dataAvailable 5, ClientEvent.resumeSend,
    ClientEvent.cleanup] (Msg.text endSignal) (by decide)

/-- C6: once recording is stopped via `cleanup`, no MediaRecorder chunk is
ever transmitted afterwards — the binary frames on the connection after any
continuation of the session are exactly those sent before `cleanup` (a
pending handler's send finds the nulled socket and throws into its catch, a
later `ondataavailable` fails its guard) — and the global socket reference
stays cleared. -/
theorem c6_no_audio_after_cleanup (evs₁ evs₂ : List ClientEvent) :
    (run (evs₁ ++ ClientEvent.cleanup :: evs₂)).sent.filter Msg.isBinary
        = (run evs₁).sent.filter Msg.isBinary ∧
    (run (evs₁ ++ ClientEvent.cleanup :: evs₂)).ws = none := by
  have hfold : run (evs₁ ++ ClientEvent.cleanup :: evs₂)
      = evs₂.foldl step (step (run evs₁) ClientEvent.cleanup) := by
    simp [run, List.foldl_append]
  have hws : (step (run evs₁) ClientEvent.cleanup).ws = none := by
    by_cases hw : (run evs₁).ws = some ReadyState.OPEN <;> simp [step, hw]
  obtain ⟨h1, h2⟩ := foldl_step_ws_none evs₂ _ hws
  constructor
  · rw [hfold, h2]
    by_cases hw : (run evs₁).ws = some ReadyState.OPEN
    · simp [step, hw, List.filter_append, Msg.isBinary]
    · simp [step, hw]
  · rw [hfold]; exact h1

/-- C7: the data handler's guard — a fragment is transmitted only with a
strictly positive chunk size (never a zero-byte audio message), and a step
can append a frame to the sent trace only when the socket reference is
non-null and OPEN before the step. -/
theorem c7_send_guard :
    (∀ (evs : List ClientEvent) (n : Nat), Msg.audio n ∈ (run evs).sent → 0 < n) ∧
    (∀ (s : ClientState) (e : ClientEvent),
      (step s e).sent = s.sent ∨
        (s.ws = some ReadyState.OPEN ∧ ∃ m : Msg, (step s e).sent = s.sent ++ [m])) := by
  constructor
  · intro evs n hn
    exact (run_posSizes evs).2 n hn
  · intro s e
    rcases step_sent_cases s e with h | ⟨hw, ⟨n, _, heq⟩ | heq⟩
    · exact Or.inl h
    · exact Or.inr ⟨hw, _, heq⟩
    · exact Or.inr ⟨hw, _, heq⟩

/-- C7 witnessed: the 5-byte chunk transmitted in a concrete session has
positive size. -/
theorem c7_send_guard_w : 0 < 5 :=
  c7_send_guard.1 [ClientEvent.dataAvailable 5, ClientEvent.resumeSend] 5 (by decide)

/-- The timeslice argument of `mediaRecorder.start(3000)` (app.js line 167):
MediaRecorder fires `ondataavailable` with a chunk roughly every this many
milliseconds while recording. -/
def recorderTimesliceMs : Nat := 3000

/-- C8: the client starts the MediaRecorder with a 3000-millisecond
timeslice, chunking microphone audio at a fixed three-second cadence. -/
theorem c8_timeslice : recorderTimesliceMs = 3000 := rfl

/-- The ordered MIME-type preference list `supportedTypes`
(app.js lines 85-90). -/
def supportedTypes : List String :=
  ["audio/webm;codecs=opus", "audio/webm", "audio/mp4;codecs=mp4a.40.2",
    "audio/ogg;codecs=opus"]

/-- The selection loop (app.js lines 92-98): `selectedType` starts as `''`
and the loop breaks at the first type `MediaRecorder.isTypeSupported`
accepts. -/
def selectFrom (isTypeSupported : String → Bool) : List String → String
  | [] => ""
  | t :: rest => if isTypeSupported t then t else selectFrom isTypeSupported rest

/-- The MIME type chosen for this browser. -/
def selectMimeType (isTypeSupported : String → Bool) : String :=
  selectFrom isTypeSupported supportedTypes

/-- The `mimeType` entry of the MediaRecorder options (app.js lines 103-106):
`...(selectedType && { mimeType: selectedType })` spreads nothing when
`selectedType` is the empty string, leaving the browser's default format. -/
def recorderMimeOption (isTypeSupported : String → Bool) : Option String :=
  if selectMimeType isTypeSupported = "" then none
  else some (selectMimeType isTypeSupported)

theorem selectFrom_eq_find (isTypeSupported : String → Bool) (l : List String) :
    selectFrom isTypeSupported l = ((l.find? isTypeSupported).getD "") := by
  induction l with
  | nil => rfl
  | cons t rest ih =>
      by_cases h : isTypeSupported t = true
      · simp [selectFrom, List.find?_cons, h]
      · have h2 : isTypeSupported t = false := by simpa using h
        simp [selectFrom, List.find?_cons, h2, ih]

/-- C9: the client picks the recording MIME type as the first element of the
preference list that `MediaRecorder.isTypeSupported` reports as supported,
and when none is supported it selects `''` and omits the `mimeType` option,
leaving the browser's default format. -/
theorem c9_mime_selection (isTypeSupported : String → Bool) :
    selectMimeType isTypeSupported = ((supportedTypes.find? isTypeSupported).getD "") ∧
    (∀ t, supportedTypes.find? isTypeSupported = some t →
      recorderMimeOption isTypeSupported = some t) ∧
    (supportedTypes.find? isTypeSupported = none →
      selectMimeType isTypeSupported = "" ∧
        recorderMimeOption isTypeSupported = none) := by
  have hsel : selectMimeType isTypeSupported
      = ((supportedTypes.find? isTypeSupported).getD "") :=
    selectFrom_eq_find isTypeSupported supportedTypes
  refine ⟨hsel, ?_, ?_⟩
  · intro t ht
    have htne : t ≠ "" := by
      have hmem : t ∈ supportedTypes := List.mem_of_find?_eq_some ht
      fin_cases hmem <;> decide
    have : selectMimeType isTypeSupported = t := by rw [hsel, ht]; rfl
    simp [recorderMimeOption, this, htne]
  · intro hn
    have h0 : selectMimeType isTypeSupported = "" := by rw [hsel, hn]; rfl
    simp [recorderMimeOption, h0]

/-- C9 witnessed on a browser supporting exactly `audio/webm`: the second
list entry is chosen and becomes the `mimeType` option. -/
theorem c9_mime_selection_w :
    recorderMimeOption (fun t => t == "audio/webm") = some "audio/webm" :=
  (c9_mime_selection (fun t => t == "audio/webm")).2.1 "audio/webm" (by decide)

/-- A Transcript Unit emitted by the server: an incremental caption or the
single final caption. -/
inductive TranscriptUnit
  | incremental (text : String)
  | final (text : String)
deriving DecidableEq, Repr

/-- Whether a Transcript Unit is the final one. -/
def TranscriptUnit.isFinal : TranscriptUnit → Bool
  | .final _ => true
  | _ => false

/-- Server-side session events: an audio fragment arrives, a periodic
transcription pass is triggered, or the Control Signal arrives. -/
inductive SrvEvent
  | frag (bytes : List Nat)
  | tick
  | endSignal
deriving DecidableEq, Repr

/-- Modelled from the spec: the server (`backend/main.py`,
`websocket_endpoint` and `process_complete_audio_stream`) is not under
`src/`.  Per spec sections 3, 4.4 and 6: the session accumulates fragment
bytes in a monotone buffer, a periodic trigger transcribes the full buffer
snapshot and emits an incremental unit, and the Control Signal triggers one
final pass whose result is emitted as the single final unit before the
session closes; a closed session processes nothing further. -/
structure SrvState where
  buffer : List Nat
  closed : Bool
  emitted : List TranscriptUnit
deriving DecidableEq, Repr

/-- Modelled from the spec: one server step; `transcribe` is the black-box
decode+transcribe pass over the full buffer snapshot. -/
def srvStep (transcribe : List Nat → String) (s : SrvState) (e : SrvEvent) :
    SrvState :=
  if s.closed then s
  else
    match e with
    | .frag bytes => { s with buffer := s.buffer ++ bytes }
    | .tick =>
        { s with emitted := s.emitted ++ [.incremental (transcribe s.buffer)] }
    | .endSignal =>
        { s with emitted := s.emitted ++ [.final (transcribe s.buffer)],
                 closed := true }

/-- Modelled from the spec: a fresh session. -/
def srvInit : SrvState := { buffer := [], closed := false, emitted := [] }

/-- Modelled from the spec: the session state after a sequence of events. -/
def srvRun (transcribe : List Nat → String) (evs : List SrvEvent) : SrvState :=
  evs.foldl (srvStep transcribe) srvInit

theorem srvStep_no_end (transcribe : List Nat → String) (s : SrvState)
    (e : SrvEvent) (he : e ≠ SrvEvent.endSignal)
    (h : s.closed = false ∧ (s.emitted.filter TranscriptUnit.isFinal) = []) :
    (srvStep transcribe s e).closed = false ∧
      ((srvStep transcribe s e).emitted.filter TranscriptUnit.isFinal) = [] := by
  obtain ⟨h1, h2⟩ := h
  cases e with
  | frag bytes => simp [srvStep, h1, h2]
  | tick => simp [srvStep, h1, List.filter_append, h2, TranscriptUnit.isFinal]
  | endSignal => exact absurd rfl he

theorem srvRun_no_end (transcribe : List Nat → String) (evs : List SrvEvent)
    (he : ∀ e ∈ evs, e ≠ SrvEvent.endSignal) :
    (srvRun transcribe evs).closed = false ∧
      ((srvRun transcribe evs).emitted.filter TranscriptUnit.isFinal) = [] := by
  rw [srvRun]
  have gen : ∀ (l : List SrvEvent) (s : SrvState),
      (∀ e ∈ l, e ≠ SrvEvent.endSignal) →
      s.closed = false ∧ (s.emitted.filter TranscriptUnit.isFinal) = [] →
      (l.foldl (srvStep transcribe) s).closed = false ∧
        ((l.foldl (srvStep transcribe) s).emitted.filter TranscriptUnit.isFinal) = [] := by
    intro l
    induction l with
    | nil => intro s _ hs; exact hs
    | cons e rest ih =>
        intro s hl hs
        exact ih (srvStep transcribe s e) (fun e2 h2 => hl e2 (by simp [h2]))
          (srvStep_no_end transcribe s e (hl e (by simp)) hs)
  exact gen evs srvInit he ⟨rfl, rfl⟩

/-- C5 (spec-modelled): for every session consisting of fragments and
periodic passes followed by the Control Signal, the server emits exactly one
final Transcript Unit, it is the last message emitted, and the session then
closes. -/
theorem c5_one_final_last (transcribe : List Nat → String) (evs : List SrvEvent)
    (he : ∀ e ∈ evs, e ≠ SrvEvent.endSignal) :
    ((srvRun transcribe (evs ++ [SrvEvent.endSignal])).emitted.filter
        TranscriptUnit.isFinal).length = 1 ∧
    (∃ t, (srvRun transcribe (evs ++ [SrvEvent.endSignal])).emitted.getLast?
        = some (TranscriptUnit.final t)) ∧
    (srvRun transcribe (evs ++ [SrvEvent.endSignal])).closed = true := by
  obtain ⟨h1, h2⟩ := srvRun_no_end transcribe evs he
  have hfold : srvRun transcribe (evs ++ [SrvEvent.endSignal])
      = srvStep transcribe (srvRun transcribe evs) SrvEvent.endSignal := by
    simp [srvRun, List.foldl_append]
  rw [hfold]
  refine ⟨?_, ⟨transcribe (srvRun transcribe evs).buffer, ?_⟩, ?_⟩
  · simp [srvStep, h1, List.filter_append, h2, TranscriptUnit.isFinal]
  · simp [srvStep, h1]
  · simp [srvStep, h1]

/-- C5 witnessed: two fragments, one periodic pass, then the Control Signal,
with a transcription stub. -/
theorem c5_one_final_last_w :
    ((srvRun (fun _ => "text") ([SrvEvent.frag [1, 2], SrvEvent.tick,
        SrvEvent.frag [3]] ++ [SrvEvent.endSignal])).emitted.filter
        TranscriptUnit.isFinal).length = 1 ∧
    (∃ t, (srvRun (fun _ => "text") ([SrvEvent.frag [1, 2], SrvEvent.tick,
        SrvEvent.frag [3]] ++ [SrvEvent.endSignal])).emitted.getLast?
        = some (TranscriptUnit.final t)) ∧
    (srvRun (fun _ => "text") ([SrvEvent.frag [1, 2], SrvEvent.tick,
        SrvEvent.frag [3]] ++ [SrvEvent.endSignal])).closed = true :=
  c5_one_final_last (fun _ => "text")
    [SrvEvent.frag [1, 2], SrvEvent.tick, SrvEvent.frag [3]] (by decide)

